import Mathlib

/-!
Shallow embedding of the TempBox class (an in-memory key value store with
optional per-key TTL and proactive expiration) and proofs about its claims.

Modelling choices, each traced to the source:
- JS values of type any are modelled as Option V, where none stands for the
  JS value undefined.  The stored value and the return of get both live in
  Option V, so get conflates absent with a stored undefined just as the
  source does.
- Date.now is passed explicitly as a natural number argument now.
- The Map data field is modelled as a function from String to Option (Entry V);
  the source only uses Map.get, Map.set, Map.delete and Map.clear, so the
  function model is observationally faithful.
- The TinyQueue priority queue (comparator a.expiresAt - b.expiresAt) is
  modelled as a list kept sorted by expiresAt via insertion; peek is head,
  pop removes the head.  The tie break among equal timestamps is
  implementation defined in the source and irrelevant to the claims proved.
- setTimeout and clearTimeout are modelled explicitly: the platform keeps a
  list timers of armed timers, setTimeout appends a timer with a fresh id and
  records the id in the timer field, clearTimeout removes the timer with the
  referenced id.  A separate fire step models the platform invoking the
  callback of a due timer, with the key and entry the closure captured at
  arming time, exactly as in the source.
- Every callback invocation (onSet, onDelete, onExpire, onClear) is recorded
  in an events log, so claims about callback counts become claims about the
  log.
-/

namespace TempBox

/-- Entry stored in the data map: value (none models undefined) and the
expiresAt field (none models null, meaning never expires). -/
structure Entry (V : Type) where
  value : Option V
  expiresAt : Option Nat
deriving DecidableEq

/-- Item pushed into the TinyQueue: a key together with the expiresAt
timestamp recorded at the time of the set call. -/
structure QueuedValue where
  expiresAt : Nat
  key : String
deriving DecidableEq

/-- A platform timer armed by setTimeout inside scheduleNext.  It records the
instant it fires at (now plus delay) and the key and entry captured by the
callback closure in the source. -/
structure ArmedTimer (V : Type) where
  id : Nat
  fireAt : Nat
  key : String
  entry : Entry V
deriving DecidableEq

/-- One observable callback invocation. -/
inductive Event (V : Type) where
  | onSet (key : String) (value : Option V)
  | onDelete (key : String)
  | onExpire (key : String) (value : Option V)
  | onClear
deriving DecidableEq

/-- The whole state of one TempBox instance together with the platform timer
table and the log of callback invocations. -/
structure Box (V : Type) where
  data : String → Option (Entry V)
  queue : List QueuedValue
  timer : Option Nat
  timers : List (ArmedTimer V)
  nextId : Nat
  events : List (Event V)

/-- State of a freshly constructed TempBox. -/
def init (V : Type) : Box V :=
  { data := fun _ => none
    queue := []
    timer := none
    timers := []
    nextId := 0
    events := [] }

/-- Map.get on the data map. -/
def mapGet (k : String) (d : String → Option (Entry V)) : Option (Entry V) :=
  d k

/-- Map.set on the data map: unconditional overwrite. -/
def mapSet (k : String) (e : Entry V) (d : String → Option (Entry V)) :
    String → Option (Entry V) :=
  fun k' => if k' = k then some e else d k'

/-- Map.delete on the data map (ignoring the returned boolean). -/
def mapDelete (k : String) (d : String → Option (Entry V)) :
    String → Option (Entry V) :=
  fun k' => if k' = k then none else d k'

/-- TinyQueue.push: insert keeping the list sorted by ascending expiresAt. -/
def queuePush (item : QueuedValue) : List QueuedValue → List QueuedValue
  | [] => [item]
  | x :: xs =>
    if item.expiresAt < x.expiresAt then item :: x :: xs
    else x :: queuePush item xs

/-- clearTimeout: the platform drops the timer with the given id. -/
def clearTimeout (id : Nat) (ts : List (ArmedTimer V)) : List (ArmedTimer V) :=
  ts.filter (fun tm => tm.id != id)

/-- The while loop of the private method named scheduleNext in the source:
peek the minimum queue item; if the data map has no entry for its key or the
stored expiresAt differs, pop it as stale and continue; otherwise stop,
leaving the item in the queue, and return the timer to arm, whose delay is
Math.max (0, expiresAt - now), hence firing at now + that delay, capturing
the key and entry in its closure.  Returns the remaining queue and the armed
timer, if any. -/
def scheduleLoop (d : String → Option (Entry V)) (now fresh : Nat) :
    List QueuedValue → List QueuedValue × Option (ArmedTimer V)
  | [] => ([], none)
  | item :: rest =>
    match mapGet item.key d with
    | none => scheduleLoop d now fresh rest
    | some entry =>
      if entry.expiresAt = some item.expiresAt then
        (item :: rest, some ⟨fresh, now + (item.expiresAt - now), item.key, entry⟩)
      else
        scheduleLoop d now fresh rest

/-- The private method named scheduleNext in the source: clear the timer the
timer field references, if any (the field itself is not reset), then run the
reconcile loop and arm the resulting timer, if any, recording its fresh id in
the timer field. -/
def scheduleNext (s : Box V) (now : Nat) : Box V :=
  let ts : List (ArmedTimer V) :=
    match s.timer with
    | some id => clearTimeout id s.timers
    | none => s.timers
  match scheduleLoop s.data now s.nextId s.queue with
  | (q, none) => { s with queue := q, timers := ts }
  | (q, some tm) =>
      { s with queue := q, timers := ts ++ [tm], timer := some tm.id,
               nextId := s.nextId + 1 }

/-- The private method named expire in the source: delete the key from the
data map and invoke onExpire with the captured value. -/
def expire (s : Box V) (key : String) (entry : Entry V) : Box V :=
  { s with data := mapDelete key s.data
           events := s.events ++ [Event.onExpire key entry.value] }

/-- The set method.  JS truthiness of ttlMs means a missing or zero ttl
yields a null expiresAt; a truthy expiresAt pushes a queue item and runs
scheduleNext; onSet is invoked last. -/
def set (s : Box V) (now : Nat) (key : String) (value : Option V)
    (ttlMs : Option Nat) : Box V :=
  let expiresAt : Option Nat :=
    match ttlMs with
    | some n => if n ≠ 0 then some (now + n) else none
    | none => none
  let s1 := { s with data := mapSet key ⟨value, expiresAt⟩ s.data }
  let s2 :=
    match expiresAt with
    | some ea =>
      if ea ≠ 0 then
        scheduleNext { s1 with queue := queuePush ⟨ea, key⟩ s1.queue } now
      else s1
    | none => s1
  { s2 with events := s2.events ++ [Event.onSet key value] }

/-- The get method: absent key returns undefined; a truthy expiresAt that is
not in the future triggers lazy expiration and returns undefined; otherwise
the stored value is returned. -/
def get (s : Box V) (now : Nat) (key : String) : Option V × Box V :=
  match mapGet key s.data with
  | none => (none, s)
  | some entry =>
    match entry.expiresAt with
    | some ea =>
      if ea ≠ 0 ∧ ea ≤ now then (none, expire s key entry)
      else (entry.value, s)
    | none => (entry.value, s)

/-- The delete method: Map.delete reports whether the key was present and
removes it; onDelete is invoked only on success. -/
def delete (s : Box V) (key : String) : Bool × Box V :=
  let deleted := (mapGet key s.data).isSome
  let s1 := { s with data := mapDelete key s.data }
  if deleted then (true, { s1 with events := s1.events ++ [Event.onDelete key] })
  else (false, s1)

/-- The has method: defined as get not returning undefined, inheriting the
lazy expiration side effect of get. -/
def has (s : Box V) (now : Nat) (key : String) : Bool × Box V :=
  let r := get s now key
  (r.1.isSome, r.2)

/-- The stop method: clear the referenced timer and reset the timer field. -/
def stop (s : Box V) : Box V :=
  let ts : List (ArmedTimer V) :=
    match s.timer with
    | some id => clearTimeout id s.timers
    | none => s.timers
  { s with timers := ts, timer := none }

/-- The clear method: empty the data map, stop, drain the queue, invoke
onClear. -/
def clear (s : Box V) : Box V :=
  let s1 := stop { s with data := fun _ => none }
  let s2 := { s1 with queue := [] }
  { s2 with events := s2.events ++ [Event.onClear] }

/-- The body of the setTimeout callback armed by scheduleNext: pop the
minimum queue item, expire the captured key and entry, then reschedule. -/
def fireCallback (s : Box V) (tm : ArmedTimer V) (now : Nat) : Box V :=
  let s1 := { s with queue := s.queue.tail }
  let s2 := expire s1 tm.key tm.entry
  scheduleNext s2 now

/-- Platform step: if an armed timer is due (its delay has elapsed), the
platform removes it from its table and invokes its callback; otherwise
nothing happens. -/
def fireOp (s : Box V) (now : Nat) : Box V :=
  match s.timers with
  | tm :: rest =>
    if tm.fireAt ≤ now then fireCallback { s with timers := rest } tm now else s
  | [] => s

/-- One interaction with the store: a public method call or a platform timer
firing. -/
inductive Action (V : Type) where
  | set (key : String) (value : Option V) (ttlMs : Option Nat)
  | get (key : String)
  | has (key : String)
  | delete (key : String)
  | clear
  | stop
  | fire
deriving DecidableEq

/-- Interpret one action at the given instant. -/
def step (s : Box V) (now : Nat) : Action V → Box V
  | .set k v ttl => set s now k v ttl
  | .get k => (get s now k).2
  | .has k => (has s now k).2
  | .delete k => (delete s k).2
  | .clear => clear s
  | .stop => stop s
  | .fire => fireOp s now

/-- Run a timed trace of actions. -/
def run (s : Box V) : List (Nat × Action V) → Box V
  | [] => s
  | (t, a) :: rest => run (step s t a) rest

/-- Does this action set the given key (with any value and any ttl)? -/
def setsKey (k : String) : Action V → Bool
  | .set k' _ _ => k' = k
  | _ => false

/-- Invariant on the platform timer table: it holds no timer, or exactly one
timer whose id is the one recorded in the timer field. -/
def timerInv (s : Box V) : Prop :=
  match s.timers with
  | [] => True
  | [tm] => s.timer = some tm.id
  | _ :: _ :: _ => False

/-- Wording of the spec for a stale queue item: the table has no entry for
its key, or the entry holds a different current expiresAt. -/
def staleItem (d : String → Option (Entry V)) (item : QueuedValue) : Bool :=
  match d item.key with
  | none => true
  | some entry => entry.expiresAt != some item.expiresAt

/-- Reconcile as worded by the spec, for comparison with the loop translated
from the source: drop the leading stale items of the queue; if nothing
remains, stay idle; otherwise arm a timer for the first valid item with
delay max (0, expiresAt - now), computed here over the integers exactly as
the spec words it, and stop there. -/
def reconcileSpec (d : String → Option (Entry V)) (now fresh : Nat)
    (q : List QueuedValue) : List QueuedValue × Option (ArmedTimer V) :=
  match q.dropWhile (staleItem d) with
  | [] => ([], none)
  | item :: rest =>
    (item :: rest,
     some ⟨fresh, now + (max 0 ((item.expiresAt : Int) - (now : Int))).toNat,
           item.key, (d item.key).getD ⟨none, none⟩⟩)

end TempBox

namespace TempBox

/-- C1: the claim says that after set (k, v, 100) followed by delete (k)
before the 100 ms elapse, onExpire is never invoked for k.  The code
violates it: delete does not cancel or invalidate the armed timer, and the
timer callback expires its captured entry unconditionally, so onExpire
fires for k at the original expiry instant. -/
theorem c1_deleted_key_still_expires :
    Event.onExpire "k" (some "v") ∈
      (run (init String)
        [(0, .set "k" (some "v") (some 100)),
         (50, .delete "k"),
         (100, .fire)]).events := by
  decide

/-- C2: the claim says a key overwritten with no TTL keeps its value forever
regardless of timer firings.  The code violates it: a set without TTL does
not rerun scheduleNext, the timer armed for the old TTL still fires, deletes
the key and invokes onExpire with the old captured value, after which get
returns undefined. -/
theorem c2_no_ttl_overwrite_still_expires :
    (get (run (init String)
        [(0, .set "k" (some "v1") (some 100)),
         (50, .set "k" (some "v2") none),
         (100, .fire)]) 150 "k").1 = none ∧
    (run (init String)
        [(0, .set "k" (some "v1") (some 100)),
         (50, .set "k" (some "v2") none),
         (100, .fire)]).events =
      [Event.onSet "k" (some "v1"), Event.onSet "k" (some "v2"),
       Event.onExpire "k" (some "v1")] := by
  constructor <;> decide

/-- C3: the claim says onExpire is invoked exactly once per expiration event,
even when a lazy access time expiration races an armed timer.  The code
violates it: a get at the expiry instant lazily expires the key and invokes
onExpire, and the still armed timer then fires and invokes onExpire a second
time for the same expiration. -/
theorem c3_lazy_and_timer_double_expire :
    (run (init String)
        [(0, .set "k" (some "v") (some 100)),
         (100, .get "k"),
         (100, .fire)]).events.count (Event.onExpire "k" (some "v")) = 2 := by
  decide

/-- C4 counterexample: with ttl = 0 the claim asserts get returns absent at
every t ≥ 0, but ttlMs = 0 is falsy in the source, so the key is stored with
a null expiresAt and get still returns the value at t = 1000. -/
theorem c4_ttl_zero_counterexample :
    (get (run (init String) [(0, .set "k" (some "v") (some 0))]) 1000 "k").1 =
      some "v" := by
  decide

/-- C5: the reconcile loop translated from the source coincides with the
reconcile the spec words: it drops exactly the leading stale items, stays
idle when the queue is exhausted, and otherwise arms one timer for the first
valid item with delay max (0, expiresAt - now), leaving that item in the
queue. -/
theorem c5_reconcile_matches_spec (V : Type) (d : String → Option (Entry V))
    (now fresh : Nat) (q : List QueuedValue) :
    scheduleLoop d now fresh q = reconcileSpec d now fresh q := by
  induction q with
  | nil => rfl
  | cons item rest ih =>
    cases h : d item.key with
    | none =>
      have hs : staleItem d item = true := by simp [staleItem, h]
      simp only [scheduleLoop, mapGet, h, reconcileSpec, List.dropWhile_cons, hs, if_true]
      exact ih
    | some entry =>
      by_cases he : entry.expiresAt = some item.expiresAt
      · have hs : staleItem d item = false := by simp [staleItem, h, he]
        simp only [scheduleLoop, mapGet, h, he, if_pos, reconcileSpec,
          List.dropWhile_cons, hs, Bool.false_eq_true, if_false, Option.getD_some]
        refine congrArg _ (congrArg _ ?_)
        refine congrArg (fun x => ArmedTimer.mk fresh x item.key entry) ?_
        omega
      · have hs : staleItem d item = true := by simp [staleItem, h, he]
        simp only [scheduleLoop, mapGet, h, reconcileSpec, List.dropWhile_cons, hs, if_true]
        rw [if_neg he]
        exact ih

/-- C8: delete returns true exactly when the key is present in the table,
regardless of whether its TTL has already passed; it removes the entry,
appends exactly one onDelete event when it removed something and no event
otherwise (in particular never an onExpire), and leaves the queue and the
timers untouched. -/
theorem c8_delete_semantics (V : Type) (s : Box V) (k : String) :
    (delete s k).1 = (mapGet k s.data).isSome ∧
    mapGet k (delete s k).2.data = none ∧
    (delete s k).2.events =
      s.events ++ (if (mapGet k s.data).isSome then [Event.onDelete k] else []) ∧
    (delete s k).2.queue = s.queue ∧
    (delete s k).2.timers = s.timers ∧
    (delete s k).2.timer = s.timer := by
  simp only [mapGet] at *
  by_cases h : (s.data k).isSome
  · simp [delete, mapGet, mapDelete, h]
  · simp [delete, mapGet, mapDelete, h]

/-- C10: storing undefined with no TTL is indistinguishable from absence at
the public interface: get returns undefined and has returns false, although
the entry is present in the table with no expiry. -/
theorem c10_undefined_value_indistinguishable (V : Type) (k : String) (now t : Nat) :
    (get (set (init V) now k none none) t k).1 = none ∧
    (has (set (init V) now k none none) t k).1 = false ∧
    mapGet k (set (init V) now k none none).data = some ⟨none, none⟩ := by
  refine ⟨?_, ?_, ?_⟩ <;>
    simp [set, get, has, mapGet, mapSet, init]

end TempBox

namespace TempBox

theorem clearedTimers_eq_nil (V : Type) (s : Box V) (h : timerInv s) :
    (match s.timer with
     | some id => clearTimeout id s.timers
     | none => s.timers) = [] := by
  unfold timerInv at h
  cases hts : s.timers with
  | nil =>
    cases s.timer with
    | none => rfl
    | some id => rfl
  | cons tm rest =>
    rw [hts] at h
    cases rest with
    | nil =>
      rw [h]
      simp [clearTimeout]
    | cons tm2 rest2 => exact h.elim

theorem timerInv_scheduleNext (V : Type) (s : Box V) (now : Nat)
    (h : timerInv s) : timerInv (scheduleNext s now) := by
  have hc := clearedTimers_eq_nil V s h
  simp only [scheduleNext, hc]
  rcases hl : scheduleLoop s.data now s.nextId s.queue with ⟨q, o⟩
  cases o with
  | none => trivial
  | some tm => simp [timerInv]

theorem timerInv_stop (V : Type) (s : Box V) (h : timerInv s) :
    timerInv (stop s) := by
  have hc := clearedTimers_eq_nil V s h
  simp only [stop, hc]
  trivial

theorem timerInv_set (V : Type) (s : Box V) (now : Nat) (k : String)
    (v : Option V) (ttl : Option Nat) (h : timerInv s) :
    timerInv (set s now k v ttl) := by
  cases ttl with
  | none => exact h
  | some n =>
    by_cases hn : n = 0
    · subst hn
      exact h
    · have h2 : now + n ≠ 0 := by omega
      have e1 : set s now k v (some n)
          = { scheduleNext
                { s with data := mapSet k ⟨v, some (now + n)⟩ s.data,
                         queue := queuePush ⟨now + n, k⟩ s.queue } now
              with events :=
                (scheduleNext
                  { s with data := mapSet k ⟨v, some (now + n)⟩ s.data,
                           queue := queuePush ⟨now + n, k⟩ s.queue } now).events
                  ++ [Event.onSet k v] } := by
        simp [set, hn, h2]
      rw [e1]
      exact timerInv_scheduleNext V _ now h

theorem timerInv_get (V : Type) (s : Box V) (now : Nat) (k : String)
    (h : timerInv s) : timerInv (get s now k).2 := by
  unfold get
  split
  · exact h
  · split
    · split
      · exact h
      · exact h
    · exact h

theorem timerInv_step (V : Type) (s : Box V) (t : Nat) (a : Action V)
    (h : timerInv s) : timerInv (step s t a) := by
  cases a with
  | set k v ttl => exact timerInv_set V s t k v ttl h
  | get k => exact timerInv_get V s t k h
  | has k => exact timerInv_get V s t k h
  | delete k =>
    simp only [step, delete]
    split
    · exact h
    · exact h
  | clear => exact timerInv_stop V _ h
  | stop => exact timerInv_stop V s h
  | fire =>
    simp only [step, fireOp]
    split
    · next tm rest hts =>
      split
      · unfold timerInv at h
        rw [hts] at h
        cases rest with
        | nil =>
          simp only [fireCallback]
          apply timerInv_scheduleNext
          trivial
        | cons tm2 rest2 => exact h.elim
      · exact h
    · exact h

theorem timerInv_run (V : Type) (s : Box V) (tr : List (Nat × Action V))
    (h : timerInv s) : timerInv (run s tr) := by
  induction tr generalizing s with
  | nil => exact h
  | cons p rest ih => exact ih _ (timerInv_step V s p.1 p.2 h)

/-- C9: along every operation sequence over set, get, has, delete, clear,
stop and timer firings from a fresh store, the platform holds at most one
outstanding timer at every instant. -/
theorem c9_at_most_one_timer (V : Type) (tr : List (Nat × Action V)) :
    (run (init V) tr).timers.length ≤ 1 := by
  have h : timerInv (run (init V) tr) := timerInv_run V _ tr trivial
  unfold timerInv at h
  cases hts : (run (init V) tr).timers with
  | nil => simp
  | cons tm rest =>
    rw [hts] at h
    cases rest with
    | nil => simp
    | cons tm2 rest2 => exact h.elim

end TempBox

namespace TempBox

theorem scheduleNext_data (V : Type) (s : Box V) (now : Nat) :
    (scheduleNext s now).data = s.data := by
  simp only [scheduleNext]
  split
  · rfl
  · rfl

theorem get_absent (V : Type) (s : Box V) (t : Nat) (k : String)
    (h : s.data k = none) : get s t k = (none, s) := by
  simp only [get, mapGet, h]

theorem get_expired (V : Type) (s : Box V) (t : Nat) (k : String)
    (e : Entry V) (ea : Nat) (h : s.data k = some e) (he : e.expiresAt = some ea)
    (h0 : ea ≠ 0) (hle : ea ≤ t) :
    get s t k = (none, expire s k e) := by
  simp only [get, mapGet, h, he]
  rw [if_pos ⟨h0, hle⟩]

theorem set_data_ne (V : Type) (s : Box V) (now : Nat) (k' : String)
    (v : Option V) (ttl : Option Nat) (k : String) (hne : k ≠ k') :
    (set s now k' v ttl).data k = s.data k := by
  cases ttl with
  | none => simp [set, mapSet, hne]
  | some n =>
    by_cases hn : n = 0
    · subst hn
      simp [set, mapSet, hne]
    · have h2 : now + n ≠ 0 := by omega
      simp [set, hn, h2, scheduleNext_data, mapSet, hne]

theorem step_data_k (V : Type) (s : Box V) (t : Nat) (a : Action V) (k : String)
    (ha : setsKey k a = false) :
    (step s t a).data k = s.data k ∨ (step s t a).data k = none := by
  cases a with
  | set k' v ttl =>
    have hne : k ≠ k' := by
      simp only [setsKey, decide_eq_false_iff_not] at ha
      exact fun hc => ha (hc ▸ rfl)
    exact Or.inl (set_data_ne V s t k' v ttl k hne)
  | get k' =>
    simp only [step, get]
    split
    · exact Or.inl rfl
    · split
      · split
        · by_cases hk : k = k'
          · subst hk
            right
            simp [expire, mapDelete]
          · left
            simp [expire, mapDelete, hk]
        · exact Or.inl rfl
      · exact Or.inl rfl
  | has k' =>
    simp only [step, has, get]
    split
    · exact Or.inl rfl
    · split
      · split
        · by_cases hk : k = k'
          · subst hk
            right
            simp [expire, mapDelete]
          · left
            simp [expire, mapDelete, hk]
        · exact Or.inl rfl
      · exact Or.inl rfl
  | delete k' =>
    simp only [step, delete]
    split
    · by_cases hk : k = k'
      · subst hk
        right
        simp [mapDelete]
      · left
        simp [mapDelete, hk]
    · by_cases hk : k = k'
      · subst hk
        right
        simp [mapDelete]
      · left
        simp [mapDelete, hk]
  | clear => exact Or.inr rfl
  | stop => exact Or.inl rfl
  | fire =>
    simp only [step, fireOp]
    split
    · next tm rest hts =>
      split
      · rw [show (fireCallback { s with timers := rest } tm t).data
              = mapDelete tm.key s.data from by
            simp [fireCallback, expire, scheduleNext_data]]
        by_cases hk : k = tm.key
        · subst hk
          right
          simp [mapDelete]
        · left
          simp [mapDelete, hk]
      · exact Or.inl rfl
    · exact Or.inl rfl

theorem expiryBound_run (V : Type) (k : String) (e0 : Nat)
    (tr : List (Nat × Action V)) (s : Box V)
    (htr : tr.all (fun p => !setsKey k p.2) = true)
    (h : ∀ e, s.data k = some e → e.expiresAt = some e0) :
    ∀ e, (run s tr).data k = some e → e.expiresAt = some e0 := by
  induction tr generalizing s with
  | nil => exact h
  | cons p rest ih =>
    simp only [List.all_cons, Bool.and_eq_true, Bool.not_eq_true'] at htr
    refine ih _ (by simp [List.all_eq_true]; intro x hx; have := htr.2; simp [List.all_eq_true] at this; exact this x hx) ?_
    intro e he
    rcases step_data_k V s p.1 p.2 k htr.1 with hh | hh
    · rw [hh] at he
      exact h e he
    · rw [hh] at he
      exact absurd he (by simp)

/-- C4 as amended: a TTL of 0 is treated as no TTL by the source, so the
claim holds for every nonzero ttl: after set (k, v, ttl) at t0, as long as k
is not set again, get (k) at any instant t at least t0 + ttl returns absent
and a subsequent has (k) returns false, whether or not the timer fired and
whatever else ran in between. -/
theorem c4_amended_post_expiry_removal (V : Type) (s0 : Box V) (t0 ttl : Nat)
    (k : String) (v : Option V) (tr : List (Nat × Action V)) (t t2 : Nat)
    (httl : ttl ≠ 0)
    (htr : tr.all (fun p => !setsKey k p.2) = true)
    (ht : t0 + ttl ≤ t) :
    (get (run (set s0 t0 k v (some ttl)) tr) t k).1 = none ∧
    (has (get (run (set s0 t0 k v (some ttl)) tr) t k).2 t2 k).1 = false := by
  have h0 : ∀ e, (set s0 t0 k v (some ttl)).data k = some e →
      e.expiresAt = some (t0 + ttl) := by
    intro e he
    have h2 : t0 + ttl ≠ 0 := by omega
    simp [set, httl, h2, scheduleNext_data, mapSet] at he
    rw [← he]
  have hP := expiryBound_run V k (t0 + ttl) tr _ htr h0
  have hzero : t0 + ttl ≠ 0 := by omega
  cases hd : (run (set s0 t0 k v (some ttl)) tr).data k with
  | none =>
    rw [get_absent V _ t k hd]
    constructor
    · rfl
    · rw [has, get_absent V _ t2 k hd]
      rfl
  | some e =>
    have he := hP e hd
    rw [get_expired V _ t k e (t0 + ttl) hd he hzero ht]
    constructor
    · rfl
    · rw [has, get_absent V _ t2 k (by simp [expire, mapDelete])]
      rfl

end TempBox

namespace TempBox

/-- Witness for the amended C4 at a concrete input. -/
theorem c4_amended_witness :
    (100 : Nat) ≠ 0 ∧
    (([] : List (Nat × Action String)).all (fun p => !setsKey "k" p.2) = true) ∧
    0 + 100 ≤ 150 ∧
    ((get (run (set (init String) 0 "k" (some "v") (some 100)) []) 150 "k").1 = none ∧
     (has (get (run (set (init String) 0 "k" (some "v") (some 100)) []) 150 "k").2
        160 "k").1 = false) :=
  ⟨by decide, by decide, by decide,
   c4_amended_post_expiry_removal String (init String) 0 100 "k" (some "v") []
     150 160 (by decide) (by decide) (by decide)⟩

end TempBox

namespace TempBox

/-- C7: under the timer table invariant, stop cancels the pending timer and
changes nothing else: data, queue and events are untouched; and a subsequent
get on a key whose truthy expiry has passed still lazily expires it even
after stop, returning absent, removing the entry and firing onExpire. -/
theorem c7_stop_frame_and_lazy_expiry (V : Type) (s : Box V) (k : String)
    (e : Entry V) (ea t : Nat) (hInv : timerInv s)
    (hk : s.data k = some e) (he : e.expiresAt = some ea)
    (h0 : ea ≠ 0) (hle : ea ≤ t) :
    (stop s).data = s.data ∧ (stop s).queue = s.queue ∧
    (stop s).events = s.events ∧ (stop s).timers = [] ∧ (stop s).timer = none ∧
    (get (stop s) t k).1 = none ∧
    (get (stop s) t k).2.data k = none ∧
    (get (stop s) t k).2.events = s.events ++ [Event.onExpire k e.value] := by
  have hts : (stop s).timers = [] := clearedTimers_eq_nil V s hInv
  have hget : get (stop s) t k = (none, expire (stop s) k e) :=
    get_expired V (stop s) t k e ea hk he h0 hle
  refine ⟨rfl, rfl, rfl, hts, rfl, ?_, ?_, ?_⟩
  · rw [hget]
  · rw [hget]
    simp [expire, mapDelete]
  · rw [hget]
    simp [expire]
    rfl

/-- State reached from a fresh box by one set with TTL 100 at t0. -/
theorem c6_state_a (V : Type) (k : String) (v1 : Option V) (t0 : Nat) :
    set (init V) t0 k v1 (some 100) =
      { data := mapSet k ⟨v1, some (t0 + 100)⟩ (fun _ => none),
        queue := [⟨t0 + 100, k⟩],
        timer := some 0,
        timers := [⟨0, t0 + 100, k, ⟨v1, some (t0 + 100)⟩⟩],
        nextId := 1,
        events := [Event.onSet k v1] } := by
  have hA : t0 + 100 ≠ 0 := by omega
  simp [set, init, hA, queuePush, scheduleNext, scheduleLoop, mapGet, mapSet,
    clearTimeout]

end TempBox

namespace TempBox

/-- State reached after overwriting that key with TTL 10000 at t1 at or
after t0: the old queue item is discarded as stale and the timer is rearmed
for t1 + 10000. -/
theorem c6_state_b (V : Type) (k : String) (v1 v2 : Option V) (t0 t1 : Nat)
    (h01 : t0 ≤ t1) :
    set (set (init V) t0 k v1 (some 100)) t1 k v2 (some 10000) =
      { data := mapSet k ⟨v2, some (t1 + 10000)⟩
          (mapSet k ⟨v1, some (t0 + 100)⟩ (fun _ => none)),
        queue := [⟨t1 + 10000, k⟩],
        timer := some 1,
        timers := [⟨1, t1 + 10000, k, ⟨v2, some (t1 + 10000)⟩⟩],
        nextId := 2,
        events := [Event.onSet k v1, Event.onSet k v2] } := by
  rw [c6_state_a]
  have hB : t1 + 10000 ≠ 0 := by omega
  have hC : ¬ t1 + 10000 < t0 + 100 := by omega
  have hD : ¬ t0 + 100 = t1 + 10000 := by omega
  have hE : ¬ t1 + 9900 = t0 := by omega
  simp [set, hB, queuePush, hC, scheduleNext, scheduleLoop, mapGet, mapSet,
    clearTimeout, hD, hE]

end TempBox

namespace TempBox

/-- C6: set (k, v1, 100) at t0 followed by set (k, v2, 10000) at t1 before
the first TTL elapses arms exactly one timer, for t1 + 10000 with captured
value v2; no timer can fire at any earlier instant (in particular not at
t0 + 100); and firing at t1 + 10000 produces exactly one onExpire event,
carrying v2, leaving no timer armed and an empty queue. -/
theorem c6_overwrite_cancels_old_schedule (V : Type) (k : String)
    (v1 v2 : Option V) (t0 t1 t : Nat) (h01 : t0 ≤ t1) (h1 : t1 < t0 + 100)
    (htl : t < t1 + 10000) :
    (set (set (init V) t0 k v1 (some 100)) t1 k v2 (some 10000)).timers =
      [⟨1, t1 + 10000, k, ⟨v2, some (t1 + 10000)⟩⟩] ∧
    fireOp (set (set (init V) t0 k v1 (some 100)) t1 k v2 (some 10000)) t =
      set (set (init V) t0 k v1 (some 100)) t1 k v2 (some 10000) ∧
    (fireOp (set (set (init V) t0 k v1 (some 100)) t1 k v2 (some 10000))
        (t1 + 10000)).events =
      [Event.onSet k v1, Event.onSet k v2, Event.onExpire k v2] ∧
    (fireOp (set (set (init V) t0 k v1 (some 100)) t1 k v2 (some 10000))
        (t1 + 10000)).timers = [] ∧
    (fireOp (set (set (init V) t0 k v1 (some 100)) t1 k v2 (some 10000))
        (t1 + 10000)).queue = [] := by
  rw [c6_state_b V k v1 v2 t0 t1 h01]
  have hnd : ¬ t1 + 10000 ≤ t := by omega
  refine ⟨rfl, ?_, ?_, ?_, ?_⟩
  · simp [fireOp, hnd]
  · simp [fireOp, fireCallback, expire, scheduleNext, scheduleLoop, clearTimeout,
      mapGet, mapDelete, mapSet]
  · simp [fireOp, fireCallback, expire, scheduleNext, scheduleLoop, clearTimeout,
      mapGet, mapDelete, mapSet]
  · simp [fireOp, fireCallback, expire, scheduleNext, scheduleLoop, clearTimeout,
      mapGet, mapDelete, mapSet]

/-- Witness for C6 at a concrete input. -/
theorem c6_witness :
    (0 : Nat) ≤ 50 ∧ 50 < 0 + 100 ∧ 9000 < 50 + 10000 ∧
    ((set (set (init String) 0 "k" (some "v1") (some 100)) 50 "k" (some "v2")
        (some 10000)).timers =
      [⟨1, 50 + 10000, "k", ⟨some "v2", some (50 + 10000)⟩⟩] ∧
    fireOp (set (set (init String) 0 "k" (some "v1") (some 100)) 50 "k"
        (some "v2") (some 10000)) 9000 =
      set (set (init String) 0 "k" (some "v1") (some 100)) 50 "k" (some "v2")
        (some 10000) ∧
    (fireOp (set (set (init String) 0 "k" (some "v1") (some 100)) 50 "k"
        (some "v2") (some 10000)) (50 + 10000)).events =
      [Event.onSet "k" (some "v1"), Event.onSet "k" (some "v2"),
       Event.onExpire "k" (some "v2")] ∧
    (fireOp (set (set (init String) 0 "k" (some "v1") (some 100)) 50 "k"
        (some "v2") (some 10000)) (50 + 10000)).timers = [] ∧
    (fireOp (set (set (init String) 0 "k" (some "v1") (some 100)) 50 "k"
        (some "v2") (some 10000)) (50 + 10000)).queue = []) :=
  ⟨by decide, by decide, by decide,
   c6_overwrite_cancels_old_schedule String "k" (some "v1") (some "v2") 0 50 9000
     (by decide) (by decide) (by decide)⟩

/-- Witness for C7 at a concrete input. -/
theorem c7_witness :
    timerInv (set (init String) 0 "k" (some "v") (some 100)) ∧
    (set (init String) 0 "k" (some "v") (some 100)).data "k" =
      some ⟨some "v", some 100⟩ ∧
    (Entry.expiresAt (V := String) ⟨some "v", some 100⟩ = some 100) ∧
    (100 : Nat) ≠ 0 ∧ (100 : Nat) ≤ 200 ∧
    ((stop (set (init String) 0 "k" (some "v") (some 100))).data =
      (set (init String) 0 "k" (some "v") (some 100)).data ∧
    (stop (set (init String) 0 "k" (some "v") (some 100))).queue =
      (set (init String) 0 "k" (some "v") (some 100)).queue ∧
    (stop (set (init String) 0 "k" (some "v") (some 100))).events =
      (set (init String) 0 "k" (some "v") (some 100)).events ∧
    (stop (set (init String) 0 "k" (some "v") (some 100))).timers = [] ∧
    (stop (set (init String) 0 "k" (some "v") (some 100))).timer = none ∧
    (get (stop (set (init String) 0 "k" (some "v") (some 100))) 200 "k").1 =
      none ∧
    (get (stop (set (init String) 0 "k" (some "v") (some 100))) 200 "k").2.data
      "k" = none ∧
    (get (stop (set (init String) 0 "k" (some "v") (some 100))) 200 "k").2.events
      = (set (init String) 0 "k" (some "v") (some 100)).events ++
        [Event.onExpire "k" (some "v")]) :=
  ⟨by rw [c6_state_a]; rfl, by decide, by decide, by decide, by decide,
   c7_stop_frame_and_lazy_expiry String (set (init String) 0 "k" (some "v")
       (some 100)) "k" ⟨some "v", some 100⟩ 100 200
     (by rw [c6_state_a]; rfl) (by decide) rfl (by decide) (by decide)⟩

end TempBox
